import Mathlib

/-!
# chatroom-cpp: the relay's bounded message log, the snapshot cursor and the client feed

A shallow embedding of `src/server.cpp` (`ChatServiceImpl`) and of the client-side classes of
`src/client.cpp` (`ChatClient`, `Feed`, and the body of the `feedUpdater` loop of `main`).

Conventions of the embedding

* a `std::string` is a list of `char`s (`CppString`); every string operation the program uses
  (`size`, `empty`, `substr`, `find_first_not_of`, `+`) is generic in the alphabet;
* a `std::deque` / `std::vector` / protobuf repeated field is a `List`, front first;
* `int64_t` and `int` values are `Int`s; the program only compares them and takes `std::max`,
  so no arithmetic can overflow; the bounds of `int` appear as hypotheses where a comparison
  converts an `int` to `size_t`;
* a member function that mutates its object returns the new object next to its result;
* the RPC channel between `ChatClient` and the server is a function from request to
  `(Status, response)`;
* writes to standard output (`std::println`) are not part of the state and are left out.
-/

namespace Chatroom

/-! ## Basic types -/

/-- A `std::string`: a finite sequence of `char`s. -/
abbrev CppString := List Char

/-- Largest value of `int`. -/
def INT_MAX : Int := 2147483647

/-- Smallest value of `int`. -/
def INT_MIN : Int := -2147483648

/-- Largest value of `ptrdiff_t`, the `difference_type` of `std::deque`; no container holds more
elements than this. -/
def PTRDIFF_MAX : Nat := 2 ^ 63 - 1

/-- The conversion of an `int` to `size_t` that the usual arithmetic conversions apply when an
`int` is compared with a `size()`: the value modulo `2 ^ 64`. -/
def toSizeT (i : Int) : Nat := (i % 2 ^ 64).toNat

/-- Modelled from the spec: the protobuf message type `chatroom::ChatMessage` (its generated header
`chatroom.grpc.pb.h` is not among the sources); the three fields are the ones the program reads
and writes through `username()`, `text()`, `timestamp()`. -/
structure ChatMessage where
  username : CppString
  text : CppString
  timestamp : Int
deriving DecidableEq, Repr

/-- Modelled from the spec: the protobuf request `chatroom::ChatRequest`, one `message` field. -/
structure ChatRequest where
  message : ChatMessage
deriving DecidableEq, Repr

/-- Modelled from the spec: the protobuf request `chatroom::SnapshotRequest`, one `starttime`
field (`int64`). -/
structure SnapshotRequest where
  starttime : Int
deriving DecidableEq, Repr

/-- Modelled from the spec: the protobuf response `chatroom::ChatSnapshot`, a repeated field
`messages`. -/
structure ChatSnapshot where
  messages : List ChatMessage
deriving DecidableEq, Repr

/-- The two `grpc::StatusCode`s the server produces. -/
inductive StatusCode where
  | OK
  | INVALID_ARGUMENT
deriving DecidableEq, Repr

/-- A `grpc::Status`: code and error message. -/
structure Status where
  code : StatusCode
  error_message : String
deriving DecidableEq, Repr

/-- The constant `grpc::Status::OK`. -/
def Status.OK : Status := ⟨StatusCode.OK, ""⟩

/-- The member `grpc::Status::ok()`. -/
def Status.ok (s : Status) : Bool := s.code == StatusCode.OK

/-! ## `std::string` and `std::deque` operations -/

/-- The search loop of `std::string::find_first_not_of`, from position `pos` on. -/
def find_first_not_of_from (chars : CppString) : CppString → Nat → Option Nat
  | [], _ => none
  | c :: rest, pos =>
    if c ∈ chars then find_first_not_of_from chars rest (pos + 1) else some pos

/-- The function `std::string::find_first_not_of(chars)`: the index of the first `char` of `s` that
is not one of `chars`; `none` stands for `std::string::npos`. -/
def find_first_not_of (s chars : CppString) : Option Nat :=
  find_first_not_of_from chars s 0

/-- The function `std::string::substr(pos, n)` for `pos ≤ size()`. -/
def substr (s : CppString) (pos n : Nat) : CppString := (s.drop pos).take n

/-- The operation `push_back` of `std::deque` and of `std::back_inserter`. -/
def push_back {α : Type} (d : List α) (x : α) : List α := d ++ [x]

/-- The operation `std::deque::pop_front`. -/
def pop_front {α : Type} (d : List α) : List α := d.tail

/-- The algorithm `std::copy_if(first, last, std::back_inserter(result), pred)`. -/
def copy_if {α : Type} (pred : α → Bool) : List α → List α → List α
  | [], result => result
  | m :: rest, result => copy_if pred rest (if pred m then push_back result m else result)

/-! ## `server.cpp` -/

/-- The constant `MAX_MESSAGES_LOAD` of `server.cpp`. -/
def MAX_MESSAGES_LOAD : Int := 50

/-- The constant `MAX_MESSAGE_CHAR_LENGTH` of `server.cpp`. -/
def MAX_MESSAGE_CHAR_LENGTH : Int := 100

/-- The set of `char`s of the literal `" \t\n\v\f\r"`. -/
def whitespaceChars : CppString :=
  [' ', Char.ofNat 9, Char.ofNat 10, Char.ofNat 11, Char.ofNat 12, Char.ofNat 13]

/-- The state of a `ChatServiceImpl`: the limit given to the constructor and the deque. -/
structure ChatServiceImpl where
  messagesLimit : Int
  messages : List ChatMessage
deriving DecidableEq, Repr

/-- The handler `ChatServiceImpl::SendMessage` (server.cpp 31-58). -/
def ChatServiceImpl.SendMessage (self : ChatServiceImpl) (request : ChatRequest) :
    Status × ChatServiceImpl :=
  let msg := request.message
  let text := msg.text
  if text.isEmpty || find_first_not_of text whitespaceChars == none then
    (⟨StatusCode.INVALID_ARGUMENT, "Empty message."⟩, self)
  else
    let msg :=
      if text.length > toSizeT MAX_MESSAGE_CHAR_LENGTH then
        { msg with text := substr text 0 (toSizeT MAX_MESSAGE_CHAR_LENGTH) ++ ['.', '.', '.'] }
      else msg
    let messages := push_back self.messages msg
    let messages :=
      if messages.length > toSizeT self.messagesLimit then pop_front messages else messages
    (Status.OK, { self with messages := messages })

/-- The handler `ChatServiceImpl::GetSnapshot` (server.cpp 60-78). -/
def ChatServiceImpl.GetSnapshot (self : ChatServiceImpl) (request : SnapshotRequest) :
    Status × ChatSnapshot × ChatServiceImpl :=
  let startTime := request.starttime
  let result := copy_if (fun m : ChatMessage => decide (m.timestamp > startTime)) self.messages []
  let repeated := result.foldl (fun acc msg => push_back acc msg) []
  (Status.OK, ⟨repeated⟩, self)

/-- A sequence of `SendMessage` calls, one after the other; returns the status of every call and
the final state. -/
def ChatServiceImpl.SendMessages (self : ChatServiceImpl) :
    List ChatRequest → List Status × ChatServiceImpl
  | [] => ([], self)
  | r :: rs =>
    let step := self.SendMessage r
    let remaining := ChatServiceImpl.SendMessages step.2 rs
    (step.1 :: remaining.1, remaining.2)

/-! ## `client.cpp` -/

/-- The state of a `ChatClient`: the cursor. -/
structure ChatClient where
  timeOfLastReceivedMessage_ : Int
deriving DecidableEq, Repr

/-- The function `ChatClient::GetSnapshot` (client.cpp 60-82); `stub` is the remote call
`stub_->GetSnapshot`. A thrown `std::runtime_error` is `Except.error`. -/
def ChatClient.GetSnapshot (self : ChatClient) (stub : SnapshotRequest → Status × ChatSnapshot) :
    Except String (List ChatMessage) × ChatClient :=
  let request : SnapshotRequest := ⟨self.timeOfLastReceivedMessage_⟩
  let reply := stub request
  let status := reply.1
  let response := reply.2
  if !status.ok then
    (Except.error status.error_message, self)
  else
    let self :=
      if response.messages.length ≠ 0 then
        match response.messages.getLast? with
        | some last =>
          { self with
            timeOfLastReceivedMessage_ := max self.timeOfLastReceivedMessage_ last.timestamp }
        | none => self
      else self
    (Except.ok response.messages, self)

/-- The state of a `Feed`: the limit given to the constructor and the deque of lines. -/
structure Feed where
  feedSizeLimit_ : Int
  feed_ : List CppString
deriving DecidableEq, Repr

/-- The body of the loop of `Feed::Update` (client.cpp 120-126). -/
def Feed.append (self : Feed) (msg : ChatMessage) : Feed :=
  let str := ['['] ++ msg.username ++ [']', ' '] ++ msg.text
  let feed := push_back self.feed_ str
  if feed.length > toSizeT self.feedSizeLimit_ then
    { self with feed_ := pop_front feed }
  else
    { self with feed_ := feed }

/-- The function `Feed::Update` (client.cpp 115-128). -/
def Feed.Update (self : Feed) (messages : List ChatMessage) : Feed :=
  messages.foldl Feed.append self

/-- The function `Feed::Get()` (client.cpp 130-133), a `const` member. -/
def Feed.Get (self : Feed) : List CppString := self.feed_

/-- The function `Feed::Get(const int n)` (client.cpp 135-142), a `const` member. The range
`[end() - n, end())` is defined only when it lies inside the deque; `none` is undefined
behaviour. -/
def Feed.Get_int (self : Feed) (n : Int) : Option (List CppString) :=
  if self.feed_.length < toSizeT n then
    some self.Get
  else if 0 ≤ n ∧ n ≤ (self.feed_.length : Int) then
    some (self.feed_.drop (self.feed_.length - n.toNat))
  else
    none

/-- The connection of a client to a running server: the remote call returns what the handler
returns. -/
def serverStub (server : ChatServiceImpl) : SnapshotRequest → Status × ChatSnapshot :=
  fun request => ((server.GetSnapshot request).1, (server.GetSnapshot request).2.1)

/-- One cycle of the `feedUpdater` loop of `main` (client.cpp 309-318): `client.GetSnapshot()`
then `feed.Update(newMsgs)`; on an exception the feed is not touched. Returns the batch handed
to the feed as well. -/
def pollCycle (server : ChatServiceImpl) (client : ChatClient) (feed : Feed) :
    List ChatMessage × ChatClient × Feed :=
  match client.GetSnapshot (serverStub server) with
  | (Except.ok newMsgs, client) => (newMsgs, client, feed.Update newMsgs)
  | (Except.error _, client) => ([], client, feed)

/-! ## Specification-side definitions -/

/-- The last `n` elements of `l` (all of `l` when it has fewer). -/
def lastN {α : Type} (n : Nat) (l : List α) : List α := l.drop (l.length - n)

/-- The spec's rejection condition: the body is empty or only whitespace. -/
def isBlank (text : CppString) : Prop := ∀ c ∈ text, c ∈ whitespaceChars

instance : DecidablePred isBlank := fun text => by
  unfold isBlank
  infer_instance

/-- The spec's status of a submission: `INVALID_ARGUMENT` for a blank body, `OK` otherwise. -/
def statusOf (r : ChatRequest) : Status :=
  if isBlank r.message.text then ⟨StatusCode.INVALID_ARGUMENT, "Empty message."⟩ else Status.OK

/-- The spec's stored form of a submitted message: author and timestamp unchanged, the body cut
to its first 100 `char`s followed by `...` when it is longer than 100. -/
def storedForm (m : ChatMessage) : ChatMessage :=
  { username := m.username
    text := if m.text.length ≤ 100 then m.text else m.text.take 100 ++ ['.', '.', '.']
    timestamp := m.timestamp }

/-- The spec's cursor after a batch: the maximum of the prior cursor and all timestamps of the
batch. -/
def cursorAfter (c : Int) (batch : List ChatMessage) : Int :=
  batch.foldl (fun acc m => max acc m.timestamp) c

/-! ## Lemmas on the string and container operations -/

theorem find_first_not_of_from_eq_none (chars s : CppString) (pos : Nat) :
    find_first_not_of_from chars s pos = none ↔ ∀ c ∈ s, c ∈ chars := by
  induction s generalizing pos with
  | nil => simp [find_first_not_of_from]
  | cons c rest ih =>
    by_cases hc : c ∈ chars
    · simp [find_first_not_of_from, hc, ih]
    · simp [find_first_not_of_from, hc]

theorem find_first_not_of_eq_none (s chars : CppString) :
    find_first_not_of s chars = none ↔ ∀ c ∈ s, c ∈ chars :=
  find_first_not_of_from_eq_none chars s 0

theorem copy_if_eq {α : Type} (pred : α → Bool) (l result : List α) :
    copy_if pred l result = result ++ l.filter pred := by
  induction l generalizing result with
  | nil => simp [copy_if]
  | cons m rest ih =>
    by_cases hm : pred m = true
    · simp [copy_if, ih, hm, push_back]
    · simp [copy_if, ih, hm]

theorem foldl_push_back {α : Type} (l acc : List α) :
    l.foldl (fun acc msg => push_back acc msg) acc = acc ++ l := by
  induction l generalizing acc with
  | nil => simp
  | cons m rest ih =>
    rw [List.foldl_cons, ih]
    simp [push_back]

theorem toSizeT_of_nonneg (i : Int) (h0 : 0 ≤ i) (h1 : i ≤ INT_MAX) : toSizeT i = i.toNat := by
  unfold toSizeT
  unfold INT_MAX at h1
  rw [Int.emod_eq_of_lt h0 (by omega)]

theorem toSizeT_of_neg (i : Int) (h0 : i < 0) (h1 : INT_MIN ≤ i) :
    toSizeT i = 2 ^ 64 - (-i).toNat := by
  unfold toSizeT
  unfold INT_MIN at h1
  omega

theorem length_lastN {α : Type} (n : Nat) (l : List α) :
    (lastN n l).length = min n l.length := by
  unfold lastN
  simp
  omega

/-- Pushing at the back of the last `n` elements and popping the front when the size exceeds `n`
gives the last `n` elements of the extended sequence: the eviction step shared by the server
log and the client feed. -/
theorem push_pop_lastN {α : Type} (n : Nat) (hist : List α) (x : α) :
    (if (push_back (lastN n hist) x).length > n then pop_front (push_back (lastN n hist) x)
      else push_back (lastN n hist) x) = lastN n (hist ++ [x]) := by
  unfold lastN push_back pop_front
  by_cases h : hist.length < n
  · have h1 : hist.length - n = 0 := by omega
    have h2 : (hist ++ [x]).length - n = 0 := by simp; omega
    rw [h1, h2]
    simp
    omega
  · have h2 : (hist ++ [x]).length - n = (hist.length - n) + 1 := by simp; omega
    have h3 : (List.drop (hist.length - n) hist ++ [x]).length > n := by simp; omega
    rw [if_pos h3, h2, ← List.drop_one, ← List.drop_drop]
    congr 1
    rw [List.drop_append_of_le_length (by omega)]

/-! ## The server handlers -/

theorem toSizeT_MAX_MESSAGE_CHAR_LENGTH : toSizeT MAX_MESSAGE_CHAR_LENGTH = 100 := by
  decide

theorem guard_iff_isBlank (text : CppString) :
    (text.isEmpty || find_first_not_of text whitespaceChars == none) = true ↔ isBlank text := by
  rw [Bool.or_eq_true, beq_iff_eq, find_first_not_of_eq_none]
  constructor
  · rintro (h | h)
    · rw [List.isEmpty_iff] at h
      subst h
      intro c hc
      cases hc
    · exact h
  · intro h
    exact Or.inr h

theorem SendMessage_of_isBlank (self : ChatServiceImpl) (request : ChatRequest)
    (h : isBlank request.message.text) :
    self.SendMessage request = (⟨StatusCode.INVALID_ARGUMENT, "Empty message."⟩, self) := by
  unfold ChatServiceImpl.SendMessage
  simp only []
  rw [if_pos ((guard_iff_isBlank _).2 h)]

theorem truncate_eq_storedForm (msg : ChatMessage) :
    (if msg.text.length > toSizeT MAX_MESSAGE_CHAR_LENGTH then
        { msg with
          text := substr msg.text 0 (toSizeT MAX_MESSAGE_CHAR_LENGTH) ++ ['.', '.', '.'] }
      else msg) = storedForm msg := by
  rw [toSizeT_MAX_MESSAGE_CHAR_LENGTH]
  unfold storedForm substr
  by_cases h : msg.text.length > 100
  · rw [if_pos h, if_neg (by omega)]
    simp
  · rw [if_neg h, if_pos (by omega)]

theorem SendMessage_of_not_isBlank (self : ChatServiceImpl) (request : ChatRequest)
    (h : ¬ isBlank request.message.text) :
    self.SendMessage request =
      (Status.OK,
        { self with
          messages :=
            if (push_back self.messages (storedForm request.message)).length
                > toSizeT self.messagesLimit then
              pop_front (push_back self.messages (storedForm request.message))
            else push_back self.messages (storedForm request.message) }) := by
  unfold ChatServiceImpl.SendMessage
  simp only []
  rw [if_neg (fun hg => h ((guard_iff_isBlank _).1 hg)), truncate_eq_storedForm]

theorem length_text_storedForm (m : ChatMessage) :
    (storedForm m).text.length = if m.text.length ≤ 100 then m.text.length else 103 := by
  unfold storedForm
  by_cases h : m.text.length ≤ 100
  · simp [h]
  · simp [h]
    omega

theorem SendMessage_status (self : ChatServiceImpl) (request : ChatRequest) :
    (self.SendMessage request).1 = statusOf request := by
  unfold statusOf
  by_cases h : isBlank request.message.text
  · rw [SendMessage_of_isBlank self request h, if_pos h]
  · rw [SendMessage_of_not_isBlank self request h, if_neg h]

theorem statusOf_ok (r : ChatRequest) : (statusOf r).ok = true ↔ ¬ isBlank r.message.text := by
  unfold statusOf
  by_cases h : isBlank r.message.text
  · simp [h, Status.ok]
  · simp [h, Status.ok, Status.OK]

theorem SendMessages_spec (C : Int) (h0 : 0 ≤ C) (h1 : C ≤ INT_MAX) (reqs : List ChatRequest) :
    ∀ (hist : List ChatMessage),
      ((⟨C, lastN C.toNat hist⟩ : ChatServiceImpl).SendMessages reqs).1 = reqs.map statusOf ∧
      ((⟨C, lastN C.toNat hist⟩ : ChatServiceImpl).SendMessages reqs).2 =
        ⟨C, lastN C.toNat
          (hist ++ (reqs.filter (fun r => (statusOf r).ok)).map (fun r => storedForm r.message))⟩ := by
  induction reqs with
  | nil =>
    intro hist
    simp [ChatServiceImpl.SendMessages]
  | cons r rs ih =>
    intro hist
    unfold ChatServiceImpl.SendMessages
    simp only []
    by_cases hb : isBlank r.message.text
    · have hok : (statusOf r).ok = false := by
        rw [← Bool.not_eq_true, statusOf_ok]
        exact not_not.2 hb
      rw [SendMessage_status, SendMessage_of_isBlank _ r hb]
      simp only []
      rw [(ih hist).1, (ih hist).2, List.filter_cons, hok]
      simp
    · have hok : (statusOf r).ok = true := (statusOf_ok r).2 hb
      rw [SendMessage_status, SendMessage_of_not_isBlank _ r hb]
      simp only []
      rw [toSizeT_of_nonneg C h0 h1, push_pop_lastN, (ih _).1, (ih _).2, List.filter_cons, hok]
      simp

theorem zip_map_filter {α β γ : Type} (f : α → β) (p : β → Bool) (g : α → γ) (l : List α) :
    ((l.zip (l.map f)).filter (fun q => p q.2)).map (fun q => g q.1)
      = (l.filter (fun a => p (f a))).map g := by
  induction l with
  | nil => simp
  | cons a rest ih =>
    by_cases h : p (f a) = true
    · simp [List.filter_cons, h, ih]
    · simp [List.filter_cons, h, ih]

/-! ## C1: the log is bounded and holds the most recent accepted messages -/

/-- C1: for every limit `C` with `1 ≤ C` (an `int`) and every sequence of `SendMessage` calls
on a server that starts with an empty log, every call returns a status, after every prefix of
the calls the log holds at most `C` messages, and after all of them the log is exactly the last
`min k C` of the `k` accepted messages (those whose call returned `OK`), in their stored form
and in arrival order; when `k = C + 1` the log is the accepted messages without the first. -/
theorem SendMessages_keeps_last_C (C : Int) (hC : 1 ≤ C) (hmax : C ≤ INT_MAX)
    (reqs : List ChatRequest) :
    ((⟨C, []⟩ : ChatServiceImpl).SendMessages reqs).1.length = reqs.length ∧
    (∀ n : Nat,
      ((⟨C, []⟩ : ChatServiceImpl).SendMessages (reqs.take n)).2.messages.length ≤ C.toNat) ∧
    ((⟨C, []⟩ : ChatServiceImpl).SendMessages reqs).2.messages.length ≤ C.toNat ∧
    ((⟨C, []⟩ : ChatServiceImpl).SendMessages reqs).2.messages =
      (((reqs.zip ((⟨C, []⟩ : ChatServiceImpl).SendMessages reqs).1).filter
          (fun p => p.2.ok)).map (fun p => storedForm p.1.message)).drop
        ((((reqs.zip ((⟨C, []⟩ : ChatServiceImpl).SendMessages reqs).1).filter
            (fun p => p.2.ok)).map (fun p => storedForm p.1.message)).length
          - min (((reqs.zip ((⟨C, []⟩ : ChatServiceImpl).SendMessages reqs).1).filter
              (fun p => p.2.ok)).map (fun p => storedForm p.1.message)).length C.toNat) ∧
    ((((reqs.zip ((⟨C, []⟩ : ChatServiceImpl).SendMessages reqs).1).filter
          (fun p => p.2.ok)).map (fun p => storedForm p.1.message)).length = C.toNat + 1 →
      ((⟨C, []⟩ : ChatServiceImpl).SendMessages reqs).2.messages =
        (((reqs.zip ((⟨C, []⟩ : ChatServiceImpl).SendMessages reqs).1).filter
          (fun p => p.2.ok)).map (fun p => storedForm p.1.message)).tail) := by
  have h0 : 0 ≤ C := by omega
  have key : ∀ rs : List ChatRequest,
      ((⟨C, []⟩ : ChatServiceImpl).SendMessages rs).1 = rs.map statusOf ∧
      ((⟨C, []⟩ : ChatServiceImpl).SendMessages rs).2 =
        ⟨C, lastN C.toNat
          ((rs.filter (fun r => (statusOf r).ok)).map (fun r => storedForm r.message))⟩ := by
    intro rs
    have h := SendMessages_spec C h0 hmax rs []
    simpa [lastN] using h
  have hlen : ∀ rs : List ChatRequest,
      ((⟨C, []⟩ : ChatServiceImpl).SendMessages rs).2.messages.length ≤ C.toNat := by
    intro rs
    rw [(key rs).2]
    simp only [length_lastN]
    omega
  have hz : ((reqs.zip (reqs.map statusOf)).filter (fun p => p.2.ok)).map
        (fun p => storedForm p.1.message)
      = (reqs.filter (fun r => (statusOf r).ok)).map (fun r => storedForm r.message) :=
    zip_map_filter statusOf Status.ok (fun r => storedForm r.message) reqs
  refine ⟨?_, fun n => hlen _, hlen _, ?_, ?_⟩
  · rw [(key reqs).1, List.length_map]
  · rw [(key reqs).1, (key reqs).2, hz]
    simp only [lastN]
    congr 1
    omega
  · rw [(key reqs).1, (key reqs).2, hz]
    intro hk
    simp only [lastN]
    rw [hk, ← List.drop_one]
    congr 1
    omega

/-- Witness of C1: three accepted messages and one rejected, limit 2. -/
theorem SendMessages_keeps_last_C_witness :
    ((⟨2, []⟩ : ChatServiceImpl).SendMessages
        [⟨⟨['a'], ['x'], 1⟩⟩, ⟨⟨['b'], [' '], 2⟩⟩, ⟨⟨['c'], ['y'], 3⟩⟩,
          ⟨⟨['d'], ['z'], 4⟩⟩]).2.messages
      = [⟨['c'], ['y'], 3⟩, ⟨['d'], ['z'], 4⟩] :=
  ((SendMessages_keeps_last_C 2 (by decide) (by decide)
      [⟨⟨['a'], ['x'], 1⟩⟩, ⟨⟨['b'], [' '], 2⟩⟩, ⟨⟨['c'], ['y'], 3⟩⟩,
        ⟨⟨['d'], ['z'], 4⟩⟩]).2.2.2.2 (by decide)).trans (by decide)

/-! ## C2: the snapshot query -/

theorem GetSnapshot_eq (self : ChatServiceImpl) (request : SnapshotRequest) :
    self.GetSnapshot request =
      (Status.OK,
        ⟨self.messages.filter (fun m => decide (m.timestamp > request.starttime))⟩, self) := by
  unfold ChatServiceImpl.GetSnapshot
  simp only []
  rw [copy_if_eq, foldl_push_back]
  simp

/-- C2: for every log and every `t`, `GetSnapshot` with `starttime = t` succeeds, leaves the
server state unchanged and returns the stored messages with timestamp strictly greater than `t`,
each as often as it is stored and in the order of the log: the response is the log filtered by
`timestamp > t`, hence a subsequence of the log, a message of the log is in it exactly when its
timestamp exceeds `t`, and one with timestamp `t` is not. After `(alice, hi, 100)` is sent to an
empty log (limit 50), `GetSnapshot(0)` returns exactly that message. -/
theorem GetSnapshot_returns_newer (self : ChatServiceImpl) (t : Int) :
    (self.GetSnapshot ⟨t⟩).1 = Status.OK ∧
    (self.GetSnapshot ⟨t⟩).2.2 = self ∧
    (self.GetSnapshot ⟨t⟩).2.1.messages = self.messages.filter (fun m => decide (t < m.timestamp)) ∧
    List.Sublist (self.GetSnapshot ⟨t⟩).2.1.messages self.messages ∧
    (∀ m : ChatMessage,
      m ∈ (self.GetSnapshot ⟨t⟩).2.1.messages ↔ m ∈ self.messages ∧ t < m.timestamp) ∧
    (∀ m : ChatMessage, t < m.timestamp →
      (self.GetSnapshot ⟨t⟩).2.1.messages.count m = self.messages.count m) ∧
    (∀ m : ChatMessage, m.timestamp = t → m ∉ (self.GetSnapshot ⟨t⟩).2.1.messages) ∧
    (((⟨MAX_MESSAGES_LOAD, []⟩ : ChatServiceImpl).SendMessage
          ⟨⟨['a', 'l', 'i', 'c', 'e'], ['h', 'i'], 100⟩⟩).2.GetSnapshot ⟨0⟩).2.1.messages
      = [⟨['a', 'l', 'i', 'c', 'e'], ['h', 'i'], 100⟩] := by
  rw [GetSnapshot_eq]
  refine ⟨rfl, rfl, rfl, List.filter_sublist _, ?_, ?_, ?_, ?_⟩
  · intro m
    simp [List.mem_filter]
  · intro m hm
    rw [List.count_filter]
    simpa using hm
  · intro m hm
    simp [List.mem_filter, hm]
  · decide

/-- Witness of C2: a log with timestamps 100, 300, 200 queried at 100 and at 200. -/
theorem GetSnapshot_returns_newer_witness :
    (⟨['b'], ['y'], 300⟩ : ChatMessage) ∈
        ((⟨50, [⟨['a'], ['x'], 100⟩, ⟨['b'], ['y'], 300⟩, ⟨['c'], ['z'], 200⟩]⟩ :
            ChatServiceImpl).GetSnapshot ⟨100⟩).2.1.messages ∧
    (⟨['a'], ['x'], 100⟩ : ChatMessage) ∉
        ((⟨50, [⟨['a'], ['x'], 100⟩, ⟨['b'], ['y'], 300⟩, ⟨['c'], ['z'], 200⟩]⟩ :
            ChatServiceImpl).GetSnapshot ⟨100⟩).2.1.messages :=
  ⟨((GetSnapshot_returns_newer
      ⟨50, [⟨['a'], ['x'], 100⟩, ⟨['b'], ['y'], 300⟩, ⟨['c'], ['z'], 200⟩]⟩ 100).2.2.2.2.1
        ⟨['b'], ['y'], 300⟩).2 ⟨by decide, by decide⟩,
   (GetSnapshot_returns_newer
      ⟨50, [⟨['a'], ['x'], 100⟩, ⟨['b'], ['y'], 300⟩, ⟨['c'], ['z'], 200⟩]⟩ 100).2.2.2.2.2.2.1
        ⟨['a'], ['x'], 100⟩ rfl⟩

/-! ## C3: validation -/

/-- C3: for every server state and every request, `SendMessage` returns `INVALID_ARGUMENT`
exactly when the body is empty or every `char` of it is one of space, `\t`, `\n`, `\v`, `\f`,
`\r`; a rejected call leaves the state as it was; a call that is not rejected returns `OK`,
keeps the limit, and pushes one message (author and timestamp as submitted) at the back of the
log, after which the front is popped only if the size exceeds the limit. -/
theorem SendMessage_rejects_iff_blank (self : ChatServiceImpl) (request : ChatRequest) :
    ((self.SendMessage request).1.code = StatusCode.INVALID_ARGUMENT ↔
      (request.message.text = [] ∨
        ∀ c ∈ request.message.text,
          c = ' ' ∨ c = '\t' ∨ c = '\n' ∨ c = Char.ofNat 11 ∨ c = Char.ofNat 12 ∨ c = '\r')) ∧
    ((self.SendMessage request).1.code = StatusCode.INVALID_ARGUMENT →
      (self.SendMessage request).2 = self) ∧
    ((self.SendMessage request).1.code ≠ StatusCode.INVALID_ARGUMENT →
      (self.SendMessage request).1 = Status.OK ∧
      (self.SendMessage request).2.messagesLimit = self.messagesLimit ∧
      ∃ stored : ChatMessage,
        stored.username = request.message.username ∧
        stored.timestamp = request.message.timestamp ∧
        (self.SendMessage request).2.messages =
          if self.messages.length + 1 > toSizeT self.messagesLimit then
            (self.messages ++ [stored]).tail
          else self.messages ++ [stored]) := by
  have hblank : isBlank request.message.text ↔
      (request.message.text = [] ∨
        ∀ c ∈ request.message.text,
          c = ' ' ∨ c = '\t' ∨ c = '\n' ∨ c = Char.ofNat 11 ∨ c = Char.ofNat 12 ∨ c = '\r') := by
    have hw : whitespaceChars = [' ', '\t', '\n', Char.ofNat 11, Char.ofNat 12, '\r'] := by
      decide
    unfold isBlank
    rw [hw]
    constructor
    · intro h
      right
      intro c hc
      simpa using h c hc
    · rintro (h | h)
      · rw [h]
        intro c hc
        cases hc
      · intro c hc
        simpa using h c hc
  by_cases hb : isBlank request.message.text
  · rw [SendMessage_of_isBlank self request hb]
    exact ⟨⟨fun _ => hblank.1 hb, fun _ => rfl⟩, fun _ => rfl, fun h => absurd rfl h⟩
  · rw [SendMessage_of_not_isBlank self request hb]
    refine ⟨⟨fun h => ?_, fun h => absurd (hblank.2 h) hb⟩, fun h => ?_, fun _ => ⟨rfl, rfl, ?_⟩⟩
    · exact absurd (show StatusCode.OK = StatusCode.INVALID_ARGUMENT from h) (by decide)
    · exact absurd (show StatusCode.OK = StatusCode.INVALID_ARGUMENT from h) (by decide)
    · refine ⟨storedForm request.message, rfl, rfl, ?_⟩
      simp [push_back, pop_front]

/-- Witness of C3: `(bob, "   ", 200)` sent to an empty log is rejected and the log is
unchanged. -/
theorem SendMessage_rejects_iff_blank_witness :
    ((⟨50, []⟩ : ChatServiceImpl).SendMessage ⟨⟨['b', 'o', 'b'], [' ', ' ', ' '], 200⟩⟩).1.code
        = StatusCode.INVALID_ARGUMENT ∧
    ((⟨50, []⟩ : ChatServiceImpl).SendMessage ⟨⟨['b', 'o', 'b'], [' ', ' ', ' '], 200⟩⟩).2
        = ⟨50, []⟩ :=
  ⟨by decide,
   (SendMessage_rejects_iff_blank ⟨50, []⟩ ⟨⟨['b', 'o', 'b'], [' ', ' ', ' '], 200⟩⟩).2.1
      (by decide)⟩

/-! ## C4: the stored form of an accepted message -/

theorem SendMessage_preserves_short (self : ChatServiceImpl) (request : ChatRequest)
    (h : ∀ m ∈ self.messages, m.text.length ≤ 103) :
    ∀ m ∈ (self.SendMessage request).2.messages, m.text.length ≤ 103 := by
  by_cases hb : isBlank request.message.text
  · rw [SendMessage_of_isBlank self request hb]
    exact h
  · rw [SendMessage_of_not_isBlank self request hb]
    have hall : ∀ m ∈ push_back self.messages (storedForm request.message),
        m.text.length ≤ 103 := by
      intro m hm
      unfold push_back at hm
      rcases List.mem_append.1 hm with hm | hm
      · exact h m hm
      · rw [List.mem_singleton.1 hm, length_text_storedForm]
        split <;> omega
    intro m hm
    simp only [] at hm
    split at hm
    · exact hall m (List.mem_of_mem_tail hm)
    · exact hall m hm

theorem SendMessages_preserves_short (reqs : List ChatRequest) :
    ∀ self : ChatServiceImpl, (∀ m ∈ self.messages, m.text.length ≤ 103) →
      ∀ m ∈ (self.SendMessages reqs).2.messages, m.text.length ≤ 103 := by
  induction reqs with
  | nil =>
    intro self h
    exact h
  | cons r rs ih =>
    intro self h
    unfold ChatServiceImpl.SendMessages
    exact ih _ (SendMessage_preserves_short self r h)

/-- C4: for every server state and every accepted `SendMessage` call, the message pushed at the
back of the log has the submitted author and timestamp; its body is the submitted body when that
has at most 100 `char`s, and otherwise the first 100 `char`s followed by `...`, 103 `char`s in
all; so its body never has more than 103 `char`s, and in a log built from the empty log by
`SendMessage` calls (any limit) no body is longer than 103. -/
theorem SendMessage_stores_truncated (self : ChatServiceImpl) (request : ChatRequest)
    (hacc : (self.SendMessage request).1.ok = true) :
    (∃ stored : ChatMessage,
      (self.SendMessage request).2.messages =
        (if self.messages.length + 1 > toSizeT self.messagesLimit then
          (self.messages ++ [stored]).tail
        else self.messages ++ [stored]) ∧
      stored.username = request.message.username ∧
      stored.timestamp = request.message.timestamp ∧
      (request.message.text.length ≤ 100 → stored.text = request.message.text) ∧
      (100 < request.message.text.length →
        stored.text = request.message.text.take 100 ++ ['.', '.', '.'] ∧
        stored.text.length = 103) ∧
      stored.text.length ≤ 103) ∧
    (∀ (limit : Int) (reqs : List ChatRequest),
      ∀ m ∈ ((⟨limit, []⟩ : ChatServiceImpl).SendMessages reqs).2.messages,
        m.text.length ≤ 103) := by
  have hb : ¬ isBlank request.message.text := by
    rw [SendMessage_status] at hacc
    exact (statusOf_ok request).1 hacc
  refine ⟨⟨storedForm request.message, ?_, rfl, rfl, ?_, ?_, ?_⟩, ?_⟩
  · rw [SendMessage_of_not_isBlank self request hb]
    simp [push_back, pop_front]
  · intro h
    simp [storedForm, h]
  · intro h
    have h2 : ¬ request.message.text.length ≤ 100 := by omega
    refine ⟨by simp [storedForm, h2], ?_⟩
    rw [length_text_storedForm, if_neg h2]
  · rw [length_text_storedForm]
    split <;> omega
  · intro limit reqs
    exact SendMessages_preserves_short reqs ⟨limit, []⟩ (fun m hm => by cases hm)

set_option maxRecDepth 8000 in
/-- Witness of C4: a body of 150 `char`s sent to an empty log is stored with 103 `char`s. -/
theorem SendMessage_stores_truncated_witness :
    ∃ stored : ChatMessage,
      ((⟨50, []⟩ : ChatServiceImpl).SendMessage
          ⟨⟨['a'], List.replicate 150 'x', 7⟩⟩).2.messages = [stored] ∧
      stored.text = List.replicate 100 'x' ++ ['.', '.', '.'] ∧
      stored.text.length = 103 := by
  obtain ⟨stored, h1, _, _, _, h5, _⟩ :=
    (SendMessage_stores_truncated ⟨50, []⟩ ⟨⟨['a'], List.replicate 150 'x', 7⟩⟩ (by decide)).1
  refine ⟨stored, ?_, ?_, (h5 (by decide)).2⟩
  · rw [h1]
    rfl
  · rw [(h5 (by decide)).1]
    rfl

/-! ## C8: the feed is bounded and holds the most recent lines -/

theorem Feed_append_lastN (F : Int) (h0 : 0 ≤ F) (h1 : F ≤ INT_MAX) (hist : List CppString)
    (msg : ChatMessage) :
    (⟨F, lastN F.toNat hist⟩ : Feed).append msg =
      ⟨F, lastN F.toNat (hist ++ [['['] ++ msg.username ++ [']', ' '] ++ msg.text])⟩ := by
  unfold Feed.append
  simp only []
  rw [toSizeT_of_nonneg F h0 h1, ← push_pop_lastN]
  split <;> rfl

theorem Feed_Update_lastN (F : Int) (h0 : 0 ≤ F) (h1 : F ≤ INT_MAX) (batch : List ChatMessage) :
    ∀ hist : List CppString,
      (⟨F, lastN F.toNat hist⟩ : Feed).Update batch =
        ⟨F, lastN F.toNat
          (hist ++ batch.map (fun m => ['['] ++ m.username ++ [']', ' '] ++ m.text))⟩ := by
  induction batch with
  | nil =>
    intro hist
    simp [Feed.Update]
  | cons m rest ih =>
    intro hist
    unfold Feed.Update at ih ⊢
    rw [List.foldl_cons, Feed_append_lastN F h0 h1, ih]
    simp

theorem lastN_of_length_le {α : Type} (n : Nat) (l : List α) (h : l.length ≤ n) :
    lastN n l = l := by
  unfold lastN
  rw [Nat.sub_eq_zero_of_le h]
  rfl

/-- C8: for every limit `F` with `0 ≤ F` (an `int`), every feed holding at most `F` lines and
every batch, `Feed::Update` keeps the limit and leaves in the feed the last `min F n` elements
of the old lines followed by the batch's messages formatted as `[username] text` in batch
order, `n` being the length of that sequence; so the feed holds at most `F` lines afterwards,
and updating a feed of exactly `F` lines with one message gives the old lines followed by the
new line, without the first of them (for `1 ≤ F`: the old lines without the oldest, then the
new line). -/
theorem Feed_Update_keeps_last_F (F : Int) (h0 : 0 ≤ F) (h1 : F ≤ INT_MAX)
    (lines : List CppString) (hlines : lines.length ≤ F.toNat) (batch : List ChatMessage) :
    ((⟨F, lines⟩ : Feed).Update batch).feedSizeLimit_ = F ∧
    ((⟨F, lines⟩ : Feed).Update batch).feed_ =
      (lines ++ batch.map (fun m => ['['] ++ m.username ++ [']', ' '] ++ m.text)).drop
        ((lines ++ batch.map (fun m => ['['] ++ m.username ++ [']', ' '] ++ m.text)).length
          - min F.toNat
            (lines ++ batch.map (fun m => ['['] ++ m.username ++ [']', ' '] ++ m.text)).length) ∧
    ((⟨F, lines⟩ : Feed).Update batch).feed_.length ≤ F.toNat ∧
    (∀ m : ChatMessage, lines.length = F.toNat →
      ((⟨F, lines⟩ : Feed).Update [m]).feed_ =
        (lines ++ [['['] ++ m.username ++ [']', ' '] ++ m.text]).tail) ∧
    (∀ m : ChatMessage, lines.length = F.toNat → 1 ≤ F →
      ((⟨F, lines⟩ : Feed).Update [m]).feed_ =
        lines.tail ++ [['['] ++ m.username ++ [']', ' '] ++ m.text]) := by
  have key : ∀ b : List ChatMessage, (⟨F, lines⟩ : Feed).Update b =
      ⟨F, lastN F.toNat
        (lines ++ b.map (fun m => ['['] ++ m.username ++ [']', ' '] ++ m.text))⟩ := by
    intro b
    have h := Feed_Update_lastN F h0 h1 b lines
    rw [lastN_of_length_le _ _ hlines] at h
    exact h
  have hone : ∀ m : ChatMessage, lines.length = F.toNat →
      ((⟨F, lines⟩ : Feed).Update [m]).feed_ =
        (lines ++ [['['] ++ m.username ++ [']', ' '] ++ m.text]).tail := by
    intro m hF
    rw [key]
    simp only [lastN, List.map_cons, List.map_nil, List.length_append, List.length_singleton]
    rw [← hF, ← List.drop_one]
    congr 1
    omega
  refine ⟨?_, ?_, ?_, hone, ?_⟩
  · rw [key]
  · rw [key]
    simp only [lastN]
    congr 1
    omega
  · rw [key]
    simp only [length_lastN]
    omega
  · intro m hF hF1
    rw [hone m hF]
    cases lines with
    | nil =>
      simp at hF
      omega
    | cons l ls => rfl

/-- Witness of C8: a feed of two lines at limit 2 updated with one message. -/
theorem Feed_Update_keeps_last_F_witness :
    ((⟨2, [['o', 'n', 'e'], ['t', 'w', 'o']]⟩ : Feed).Update [⟨['a'], ['h', 'i'], 5⟩]).feed_
      = [['t', 'w', 'o'], ['[', 'a', ']', ' ', 'h', 'i']] :=
  ((Feed_Update_keeps_last_F 2 (by decide) (by decide) [['o', 'n', 'e'], ['t', 'w', 'o']]
      (by decide) []).2.2.2.2 ⟨['a'], ['h', 'i'], 5⟩ (by decide) (by decide)).trans (by decide)

/-! ## C10: the tail copy of the feed -/

/-- C10: for every feed (of a size a `std::deque` can have) and every `int` `n`, negative
values included, `Feed::Get(n)` is defined and returns a suffix of the feed: the last `n`
lines in order when `0 ≤ n ≤ len`, and the whole feed, as `Get()` does, when `n > len` or
`n < 0`. `Get` is a `const` member: it returns the copy and has no access to change the
feed. -/
theorem Feed_Get_int_suffix (feed : Feed) (n : Int) (hmin : INT_MIN ≤ n) (hmax : n ≤ INT_MAX)
    (hsize : feed.feed_.length ≤ PTRDIFF_MAX) :
    ∃ r : List CppString,
      feed.Get_int n = some r ∧
      r <:+ feed.feed_ ∧
      (0 ≤ n → n ≤ (feed.feed_.length : Int) →
        r = feed.feed_.drop (feed.feed_.length - n.toNat) ∧ r.length = n.toNat) ∧
      ((n < 0 ∨ (feed.feed_.length : Int) < n) → r = feed.feed_ ∧ r = feed.Get) := by
  unfold Feed.Get_int
  by_cases hneg : n < 0
  · have hlt : feed.feed_.length < toSizeT n := by
      rw [toSizeT_of_neg n hneg hmin]
      unfold PTRDIFF_MAX at hsize
      unfold INT_MIN at hmin
      omega
    rw [if_pos hlt]
    exact ⟨feed.feed_, rfl, List.suffix_refl _, fun h => absurd hneg (by omega),
      fun _ => ⟨rfl, rfl⟩⟩
  · have hn0 : 0 ≤ n := by omega
    rw [toSizeT_of_nonneg n hn0 hmax]
    by_cases hlt : feed.feed_.length < n.toNat
    · rw [if_pos hlt]
      exact ⟨feed.feed_, rfl, List.suffix_refl _, fun _ h => absurd hlt (by omega),
        fun _ => ⟨rfl, rfl⟩⟩
    · have hle : n ≤ (feed.feed_.length : Int) := by omega
      rw [if_neg hlt, if_pos ⟨hn0, hle⟩]
      refine ⟨_, rfl, List.drop_suffix _ _, fun _ _ => ⟨rfl, ?_⟩, fun h => ?_⟩
      · rw [List.length_drop]
        omega
      · rcases h with h | h <;> omega

/-- Witness of C10: `Get(-1)` on a feed of three lines returns the three lines. -/
theorem Feed_Get_int_suffix_witness :
    ∃ r : List CppString,
      (⟨50, [['a'], ['b'], ['c']]⟩ : Feed).Get_int (-1) = some r ∧
      r = [['a'], ['b'], ['c']] := by
  obtain ⟨r, h1, _, _, h4⟩ :=
    Feed_Get_int_suffix ⟨50, [['a'], ['b'], ['c']]⟩ (-1) (by decide) (by decide) (by decide)
  exact ⟨r, h1, (h4 (Or.inl (by decide))).1⟩

/-! ## The client cursor -/

theorem ChatClient_GetSnapshot_ok (c : Int) (stub : SnapshotRequest → Status × ChatSnapshot)
    (hok : (stub ⟨c⟩).1.ok = true) :
    (⟨c⟩ : ChatClient).GetSnapshot stub =
      (Except.ok (stub ⟨c⟩).2.messages,
        match (stub ⟨c⟩).2.messages.getLast? with
        | some last => ⟨max c last.timestamp⟩
        | none => ⟨c⟩) := by
  unfold ChatClient.GetSnapshot
  simp only [hok, Bool.not_true, Bool.false_eq_true, if_false]
  cases hm : (stub ⟨c⟩).2.messages with
  | nil => simp
  | cons m rest => simp

theorem serverStub_eq (server : ChatServiceImpl) (request : SnapshotRequest) :
    serverStub server request =
      (Status.OK, ⟨server.messages.filter (fun m => decide (m.timestamp > request.starttime))⟩) := by
  unfold serverStub
  rw [GetSnapshot_eq]

/-- C5, the code at a batch whose timestamps are not increasing: with cursor `0` and a
successful response holding timestamps `200` then `100`, `ChatClient::GetSnapshot` returns the
batch and leaves the cursor at `100`, the timestamp of the last message, while the maximum of
the prior cursor and all timestamps of the batch is `200`. -/
theorem ChatClient_GetSnapshot_cursor_last_not_max :
    (⟨0⟩ : ChatClient).GetSnapshot
        (fun _ => (Status.OK, ⟨[⟨['a'], ['x'], 200⟩, ⟨['b'], ['y'], 100⟩]⟩))
      = (Except.ok [⟨['a'], ['x'], 200⟩, ⟨['b'], ['y'], 100⟩], ⟨100⟩) ∧
    cursorAfter 0 [⟨['a'], ['x'], 200⟩, ⟨['b'], ['y'], 100⟩] = 200 ∧
    ((⟨0⟩ : ChatClient).GetSnapshot
        (fun _ => (Status.OK, ⟨[⟨['a'], ['x'], 200⟩, ⟨['b'], ['y'], 100⟩]⟩))
      ).2.timeOfLastReceivedMessage_
      ≠ cursorAfter 0 [⟨['a'], ['x'], 200⟩, ⟨['b'], ['y'], 100⟩] := by
  refine ⟨rfl, by decide, by decide⟩

/-- C6: for every log, every prior cursor `c` and every channel that answers the request of
cursor `c` with an `OK` status and the batch the server's `GetSnapshot(c)` computes for that
log, `ChatClient::GetSnapshot` returns that batch, the cursor afterwards is at least `c`, and
it is strictly greater than `c` when the batch is not empty. -/
theorem ChatClient_cursor_monotone (server : ChatServiceImpl) (c : Int)
    (stub : SnapshotRequest → Status × ChatSnapshot)
    (hok : (stub ⟨c⟩).1.ok = true)
    (hbatch : (stub ⟨c⟩).2 = (server.GetSnapshot ⟨c⟩).2.1) :
    ((⟨c⟩ : ChatClient).GetSnapshot stub).1 = Except.ok (server.GetSnapshot ⟨c⟩).2.1.messages ∧
    c ≤ ((⟨c⟩ : ChatClient).GetSnapshot stub).2.timeOfLastReceivedMessage_ ∧
    ((server.GetSnapshot ⟨c⟩).2.1.messages ≠ [] →
      c < ((⟨c⟩ : ChatClient).GetSnapshot stub).2.timeOfLastReceivedMessage_) := by
  rw [ChatClient_GetSnapshot_ok c stub hok, hbatch, GetSnapshot_eq]
  show _ ∧ c ≤ ChatClient.timeOfLastReceivedMessage_
      (match (server.messages.filter (fun m => decide (m.timestamp > c))).getLast? with
        | some last => ⟨max c last.timestamp⟩
        | none => ⟨c⟩) ∧
    (server.messages.filter (fun m => decide (m.timestamp > c)) ≠ [] →
      c < ChatClient.timeOfLastReceivedMessage_
        (match (server.messages.filter (fun m => decide (m.timestamp > c))).getLast? with
          | some last => ⟨max c last.timestamp⟩
          | none => ⟨c⟩))
  cases hl : (server.messages.filter (fun m => decide (m.timestamp > c))).getLast? with
  | none =>
    refine ⟨rfl, le_refl c, fun hne => ?_⟩
    exact absurd (List.getLast?_eq_none_iff.1 hl) hne
  | some last =>
    have hmem : last ∈ server.messages.filter (fun m => decide (m.timestamp > c)) :=
      List.mem_of_getLast?_eq_some hl
    have hgt : c < last.timestamp := by
      have h := (List.mem_filter.1 hmem).2
      simpa using h
    refine ⟨rfl, ?_, fun _ => ?_⟩
    · exact le_max_left c last.timestamp
    · exact lt_of_lt_of_le hgt (le_max_right c last.timestamp)

/-- Witness of C6: a log with timestamps 200 then 100, prior cursor 50, direct connection. -/
theorem ChatClient_cursor_monotone_witness :
    (50 : Int) < ((⟨50⟩ : ChatClient).GetSnapshot
      (serverStub ⟨50, [⟨['a'], ['x'], 200⟩, ⟨['b'], ['y'], 100⟩]⟩)).2.timeOfLastReceivedMessage_ :=
  (ChatClient_cursor_monotone ⟨50, [⟨['a'], ['x'], 200⟩, ⟨['b'], ['y'], 100⟩]⟩ 50
    (serverStub ⟨50, [⟨['a'], ['x'], 200⟩, ⟨['b'], ['y'], 100⟩]⟩) (by decide) (by decide)).2.2
      (by decide)

/-- C7, the code at a log whose timestamps are not in arrival order: `(a, x, 200)` then
`(b, y, 100)` are sent to an empty server (limit 50) and both are accepted; a client with cursor
`0` and an empty feed (limit 50) then runs two poll cycles with no `SendMessage` in between.
The first batch holds both messages and moves the cursor to `100`; the second batch is not
empty, it returns `(a, x, 200)` again, and the feed ends with the line `[a] x` twice. -/
theorem pollCycle_twice_returns_message_again :
    ((⟨50, []⟩ : ChatServiceImpl).SendMessages
        [⟨⟨['a'], ['x'], 200⟩⟩, ⟨⟨['b'], ['y'], 100⟩⟩])
      = ([Status.OK, Status.OK], ⟨50, [⟨['a'], ['x'], 200⟩, ⟨['b'], ['y'], 100⟩]⟩) ∧
    pollCycle ⟨50, [⟨['a'], ['x'], 200⟩, ⟨['b'], ['y'], 100⟩]⟩ ⟨0⟩ ⟨50, []⟩
      = ([⟨['a'], ['x'], 200⟩, ⟨['b'], ['y'], 100⟩], ⟨100⟩,
          ⟨50, [['[', 'a', ']', ' ', 'x'], ['[', 'b', ']', ' ', 'y']]⟩) ∧
    pollCycle ⟨50, [⟨['a'], ['x'], 200⟩, ⟨['b'], ['y'], 100⟩]⟩ ⟨100⟩
        ⟨50, [['[', 'a', ']', ' ', 'x'], ['[', 'b', ']', ' ', 'y']]⟩
      = ([⟨['a'], ['x'], 200⟩], ⟨200⟩,
          ⟨50, [['[', 'a', ']', ' ', 'x'], ['[', 'b', ']', ' ', 'y'],
            ['[', 'a', ']', ' ', 'x']]⟩) := by
  refine ⟨by decide, by decide, by decide⟩

/-- Two poll cycles on a log in timestamp order: when the timestamps of the log are nondecreasing
in arrival order, the second of two poll cycles with no `SendMessage` in between returns an
empty batch and leaves the feed as the first cycle left it. -/
theorem pollCycle_twice_of_sorted (server : ChatServiceImpl) (c : Int) (feed : Feed)
    (hs : server.messages.Pairwise (fun a b => a.timestamp ≤ b.timestamp)) :
    (pollCycle server (pollCycle server ⟨c⟩ feed).2.1 (pollCycle server ⟨c⟩ feed).2.2).1 = [] ∧
    (pollCycle server (pollCycle server ⟨c⟩ feed).2.1 (pollCycle server ⟨c⟩ feed).2.2).2.2
      = (pollCycle server ⟨c⟩ feed).2.2 := by
  have hcycle : ∀ (d : Int) (f : Feed), pollCycle server ⟨d⟩ f =
      (server.messages.filter (fun m => decide (m.timestamp > d)),
        (match (server.messages.filter (fun m => decide (m.timestamp > d))).getLast? with
          | some last => ⟨max d last.timestamp⟩
          | none => ⟨d⟩),
        f.Update (server.messages.filter (fun m => decide (m.timestamp > d)))) := by
    intro d f
    unfold pollCycle
    rw [ChatClient_GetSnapshot_ok d (serverStub server) (by rw [serverStub_eq]; rfl),
      serverStub_eq]
  rw [hcycle c feed]
  simp only []
  have hempty : ∀ d : Int,
      (match (server.messages.filter (fun m => decide (m.timestamp > c))).getLast? with
        | some last => (⟨max c last.timestamp⟩ : ChatClient)
        | none => ⟨c⟩) = ⟨d⟩ →
      server.messages.filter (fun m => decide (m.timestamp > d)) = [] := by
    intro d hd
    rw [List.filter_eq_nil_iff]
    intro m hm
    simp only [gt_iff_lt, decide_eq_true_eq, not_lt]
    by_cases hmc : m.timestamp ≤ c
    · cases hl : (server.messages.filter (fun m => decide (m.timestamp > c))).getLast? with
      | none =>
        rw [hl] at hd
        injection hd with hd
        omega
      | some last =>
        rw [hl] at hd
        injection hd with hd
        have := le_max_left c last.timestamp
        omega
    · have hmem : m ∈ server.messages.filter (fun m => decide (m.timestamp > c)) := by
        rw [List.mem_filter]
        exact ⟨hm, by simpa using hmc⟩
      have hp : (server.messages.filter (fun m => decide (m.timestamp > c))).Pairwise
          (fun a b => a.timestamp ≤ b.timestamp) := hs.sublist (List.filter_sublist _)
      cases hl : (server.messages.filter (fun m => decide (m.timestamp > c))).getLast? with
      | none =>
        rw [List.getLast?_eq_none_iff.1 hl] at hmem
        cases hmem
      | some last =>
        rw [hl] at hd
        injection hd with hd
        obtain ⟨init, hinit⟩ : ∃ init, server.messages.filter
            (fun m => decide (m.timestamp > c)) = init ++ [last] := by
          have hne : server.messages.filter (fun m => decide (m.timestamp > c)) ≠ [] := by
            intro h
            rw [h] at hmem
            cases hmem
          refine ⟨(server.messages.filter (fun m => decide (m.timestamp > c))).dropLast, ?_⟩
          have h1 := List.dropLast_append_getLast hne
          rw [List.getLast?_eq_getLast _ hne] at hl
          injection hl with hl
          rw [hl] at h1
          exact h1.symm
        rw [hinit] at hp hmem
        have hle : m.timestamp ≤ last.timestamp := by
          rcases List.mem_append.1 hmem with h | h
          · exact (List.pairwise_append.1 hp).2.2 m h last (List.mem_singleton.2 rfl)
          · rw [List.mem_singleton.1 h]
        have := le_max_right c last.timestamp
        omega
  cases hcur : (match (server.messages.filter (fun m => decide (m.timestamp > c))).getLast? with
        | some last => (⟨max c last.timestamp⟩ : ChatClient)
        | none => ⟨c⟩) with
  | mk d =>
    rw [hcycle d, hempty d hcur]
    exact ⟨rfl, rfl⟩

end Chatroom
